import Mathlib

/-!
# Account commands of the chain33 command-line client

A shallow embedding of `system/dapp/commands/account.go`: the handlers
`balance`, `dumpKey`, `setLabel` and `listAccount`, the reply projectors
`parseGetBalanceRes`, `parseListAccountRes` and `parseGetAllBalanceRes`, and
the amount decoding
`strconv.FormatFloat(float64(raw)/float64(types.Coin), 'f', 4, 64)`
that every projector writes inline.

The remote node, `address.CheckAddress`, `types.IsAllowExecName` and the
constant `types.Coin` are declared outside the file and are parameters
(`commands.Env`). A handler returns the RPCs it issued, in order, together
with what it printed. binary64 arithmetic is modelled exactly, on integers.
-/

namespace types

/-- The request `types.ReqString`. -/
structure ReqString where
  Data : String
  deriving DecidableEq, Repr

/-- The reply `types.ReplyString`. -/
structure ReplyString where
  Data : String
  deriving DecidableEq, Repr

/-- The request `types.ReqAddr`. -/
structure ReqAddr where
  Addr : String
  deriving DecidableEq, Repr

/-- The request `types.ReqBlocks`, with the fields `balance` sets. -/
structure ReqBlocks where
  Start : Int
  End : Int
  IsDetail : Bool
  deriving DecidableEq, Repr

/-- The request `types.ReqBalance`, with the fields `balance` sets. -/
structure ReqBalance where
  Addresses : List String
  Execer : String
  StateHash : String
  deriving DecidableEq, Repr

/-- The request `types.ReqWalletSetLabel`. -/
structure ReqWalletSetLabel where
  Addr : String
  Label : String
  deriving DecidableEq, Repr

/-- The ledger record `types.Account`: `Currency` is an int32, `Balance` and
`Frozen` are int64 amounts in the smallest unit. -/
structure Account where
  Currency : Int
  Balance : Int
  Frozen : Int
  Addr : String
  deriving DecidableEq, Repr

/-- The reply `types.WalletAccount`: an account snapshot and its label. -/
structure WalletAccount where
  Acc : Account
  Label : String
  deriving DecidableEq, Repr

end types

namespace rpctypes

/-- The JSON form `rpctypes.Account` of a ledger account. -/
structure Account where
  Currency : Int
  Balance : Int
  Frozen : Int
  Addr : String
  deriving DecidableEq, Repr

/-- One element of `rpctypes.WalletAccounts.Wallets`. -/
structure WalletAccount where
  Acc : Account
  Label : String
  deriving DecidableEq, Repr

/-- The reply `rpctypes.WalletAccounts`. The list projectors are stated for
well-formed replies, so a list element is the record the Go pointer refers
to. -/
structure WalletAccounts where
  Wallets : List WalletAccount
  deriving DecidableEq, Repr

/-- One element of `rpctypes.AllExecBalance.ExecAccount`. -/
structure ExecAccount where
  Execer : String
  Account : Account
  deriving DecidableEq, Repr

/-- The reply `rpctypes.AllExecBalance`. -/
structure AllExecBalance where
  Addr : String
  ExecAccount : List ExecAccount
  deriving DecidableEq, Repr

/-- A block header `rpctypes.Header`; `balance` reads `StateHash` only. -/
structure Header where
  Height : Int
  StateHash : String
  deriving DecidableEq, Repr

/-- The reply `rpctypes.Headers`. `Items` is a slice of pointers: `none` is a
nil element, as a JSON `null` decodes to. -/
structure Headers where
  Items : List (Option Header)
  deriving DecidableEq, Repr

end rpctypes

namespace commands

/-! ## Display records (`commands/types`) -/

/-- The display record `AccountResult`. -/
structure AccountResult where
  Currency : Int
  Balance : String
  Frozen : String
  Addr : String
  deriving DecidableEq, Repr

/-- The display record `WalletResult`. -/
structure WalletResult where
  Acc : AccountResult
  Label : String
  deriving DecidableEq, Repr

/-- The display record `AccountsResult`. -/
structure AccountsResult where
  Wallets : List WalletResult
  deriving DecidableEq, Repr

/-- The display record `ExecAccount`. -/
structure ExecAccount where
  Execer : String
  Account : AccountResult
  deriving DecidableEq, Repr

/-- The display record `AllExecBalance`. -/
structure AllExecBalance where
  Addr : String
  ExecAccount : List ExecAccount
  deriving DecidableEq, Repr

/-! ## binary64 arithmetic

`float64(x)`, `/` and `strconv.FormatFloat` are fixed by IEEE 754 and the Go
specification: every operation returns the representable value nearest to the
exact result, ties to even. The values met here are quotients of two int64
numbers, of magnitude between `2^-63` and `2^63` or zero, so neither
overflow nor subnormal numbers occur and a 53-bit significand with an
unbounded exponent is exact.
-/

/-- The quotient `n / d` rounded to the nearest natural number, ties to the
even one. -/
def rneDiv (n d : Nat) : Nat :=
  let q := n / d
  let r := n % d
  if 2 * r < d then q
  else if d < 2 * r then q + 1
  else if q % 2 = 0 then q else q + 1

/-- A finite binary64 value `(-1)^neg * mant * 2^exp`; `mant` is `0` or has
exactly 53 bits. -/
structure Float64 where
  neg : Bool
  mant : Nat
  exp : Int
  deriving DecidableEq, Repr

/-- The magnitude `mant * 2^exp` of a binary64 value. -/
def Float64.mag (x : Float64) : ℚ := (x.mant : ℚ) * (2 : ℚ) ^ x.exp

/-- The rational number a binary64 value stands for. -/
def Float64.toRat (x : Float64) : ℚ := if x.neg then -x.mag else x.mag

/-- The number of halvings that bring `n` below 2, at most `fuel` of them. -/
def log2Fuel : Nat → Nat → Nat
  | 0, _ => 0
  | fuel + 1, n => if n < 2 then 0 else log2Fuel fuel (n / 2) + 1

/-- The position of the leading bit of `n`. -/
def ilog2 (n : Nat) : Nat := log2Fuel n n

/-- The binary exponent of `n / d`: the `k` with `2^k ≤ n / d < 2^(k+1)`. -/
def floorLog2 (n d : Nat) : Int :=
  let k : Int := (ilog2 n : Int) - (ilog2 d : Int)
  if n * 2 ^ (-k).toNat < d * 2 ^ k.toNat then k - 1 else k

/-- The significand of `n / d` scaled into `[2^52, 2^53]`, before
renormalisation. -/
def sig (n d : Nat) : Nat :=
  rneDiv (n * 2 ^ (-(floorLog2 n d - 52)).toNat) (d * 2 ^ (floorLog2 n d - 52).toNat)

/-- The binary64 value nearest to `(-1)^neg * n / d`, ties to even. -/
def roundFloat64 (neg : Bool) (n d : Nat) : Float64 :=
  if n = 0 then ⟨neg, 0, 0⟩
  else
    let e := floorLog2 n d - 52
    let m := rneDiv (n * 2 ^ (-e).toNat) (d * 2 ^ e.toNat)
    if m = 2 ^ 53 then ⟨neg, 2 ^ 52, e + 1⟩ else ⟨neg, m, e⟩

/-- The conversion `float64(i)` of an int64. -/
def float64OfInt (i : Int) : Float64 := roundFloat64 (decide (i < 0)) i.natAbs 1

/-- The quotient `a / b` of two binary64 values, `b` finite and not zero. -/
def Float64.div (a b : Float64) : Float64 :=
  roundFloat64 (xor a.neg b.neg) (a.mant * 2 ^ (-(b.exp - a.exp)).toNat)
    (b.mant * 2 ^ (b.exp - a.exp).toNat)

/-- The `prec` decimal digits of `m`, most significant first, zero padded. -/
def fracDigits : Nat → Nat → List Char
  | 0, _ => []
  | p + 1, m => Nat.digitChar (m / 10 ^ p % 10) :: fracDigits p m

/-- The `%f` layout of `strconv`: sign, integer digits, and when `prec > 0` a
point and `prec` digits. `N` is the magnitude in units of `10^-prec`. -/
def fmtF (neg : Bool) (N prec : Nat) : String :=
  let sign := if neg then ['-'] else []
  let intPart := Nat.toDigits 10 (N / 10 ^ prec)
  let frac := if prec = 0 then [] else '.' :: fracDigits prec (N % 10 ^ prec)
  String.mk (sign ++ intPart ++ frac)

/-- The call `strconv.FormatFloat(x, 'f', prec, 64)` on a finite `x`: the
exact decimal expansion of `x` rounded to `prec` places, ties to even; the
sign is printed whenever the sign bit is set. -/
def FormatFloat (x : Float64) (prec : Nat) : String :=
  fmtF x.neg (rneDiv (x.mant * 10 ^ prec * 2 ^ (- -x.exp).toNat) (1 * 2 ^ (-x.exp).toNat)) prec

/-- The amount decoding each projector writes inline:
`strconv.FormatFloat(float64(raw)/float64(types.Coin), 'f', 4, 64)`. -/
def decodeAmount (Coin raw : Int) : String :=
  FormatFloat (Float64.div (float64OfInt raw) (float64OfInt Coin)) 4

/-! ## Reading a printed amount back -/

/-- The value of a decimal digit character. -/
def digitVal (c : Char) : Nat := c.toNat - 48

/-- The natural number written by a list of decimal digits. -/
def parseNat (cs : List Char) : Nat := cs.foldl (fun a c => a * 10 + digitVal c) 0

/-- The number denoted by a decimal string: optional `-`, integer digits,
point, fraction digits. -/
def decimalValue (s : String) : ℚ :=
  let cs := s.data
  let neg := cs.head? == some '-'
  let body := if neg then cs.tail else cs
  let ip := body.takeWhile (fun c => c != '.')
  let fp := (body.dropWhile (fun c => c != '.')).tail
  let v : ℚ := (parseNat ip : ℚ) + (parseNat fp : ℚ) / (10 : ℚ) ^ fp.length
  if neg then -v else v

/-! ## The RPC collaborator -/

/-- The error value an RPC call fails with. -/
abbrev RpcError := String

/-- One issued RPC: the method and the request it was given. -/
inductive Rpc where
  | DumpPrivkey (params : types.ReqString)
  | GetAccounts
  | GetAllExecBalance (req : types.ReqAddr)
  | GetHeaders (params : types.ReqBlocks)
  | GetBalance (params : types.ReqBalance)
  | SetLabl (params : types.ReqWalletSetLabel)
  deriving DecidableEq, Repr

/-- The method name handed to `jsonclient.NewRpcCtx`. -/
def Rpc.method : Rpc → String
  | .DumpPrivkey _ => "Chain33.DumpPrivkey"
  | .GetAccounts => "Chain33.GetAccounts"
  | .GetAllExecBalance _ => "Chain33.GetAllExecBalance"
  | .GetHeaders _ => "Chain33.GetHeaders"
  | .GetBalance _ => "Chain33.GetBalance"
  | .SetLabl _ => "Chain33.SetLabl"

/-- The remote node: for each method, the reply that fills the response slot
or the error of the call. -/
structure Node where
  DumpPrivkey : types.ReqString → Except RpcError types.ReplyString
  GetAccounts : Except RpcError rpctypes.WalletAccounts
  GetAllExecBalance : types.ReqAddr → Except RpcError rpctypes.AllExecBalance
  GetHeaders : types.ReqBlocks → Except RpcError rpctypes.Headers
  GetBalance : types.ReqBalance → Except RpcError (List (Option rpctypes.Account))
  SetLabl : types.ReqWalletSetLabel → Except RpcError types.WalletAccount

/-- What the handlers take from outside the file: `address.CheckAddress`
(`none` is a nil error), `types.IsAllowExecName`, the constant `types.Coin`
and the node behind `rpc_laddr`. -/
structure Env where
  CheckAddress : String → Option String
  IsAllowExecName : String → String → Bool
  Coin : Int
  node : Node

/-- A Go run-time panic. -/
inductive Panic where
  | indexOutOfRange (index length : Nat)
  | nilDereference
  deriving DecidableEq, Repr

/-- The value `Run` marshals to standard output. -/
inductive Printed where
  | reply (r : types.ReplyString)
  | accounts (r : AccountsResult)
  | account (r : AccountResult)
  | allExec (r : AllExecBalance)
  | wallet (r : WalletResult)
  deriving DecidableEq, Repr

/-- What a handler writes to standard error. -/
inductive Failure where
  | ErrInvalidAddress
  | ErrExecNameNotAllow
  | rpc (err : RpcError)
  deriving DecidableEq, Repr

/-- How a handler ends. -/
inductive Outcome where
  | printed (v : Printed)
  | stderr (e : Failure)
  | panic (p : Panic)
  deriving DecidableEq, Repr

/-- A finished command: the RPCs issued, in order, and how it ended. -/
structure Exec where
  trace : List Rpc
  outcome : Outcome
  deriving DecidableEq, Repr

/-- Modelled from the spec: `jsonclient.RpcCtx.RunResult`, which is not under
`src/`. The call either fails, and the error is returned as it is, or fills
the response slot, and the result callback maps the slot to the value
returned. The Go pair `(interface, error)` is the inner `Except`, a panic of
the callback the outer one. -/
def RunResult {ρ : Type} (reply : Except RpcError ρ)
    (cb : ρ → Except Panic (Except RpcError Printed)) : Except Panic (Except RpcError Printed) :=
  match reply with
  | .error err => .ok (.error err)
  | .ok res => cb res

/-- Modelled from the spec: `jsonclient.RpcCtx.Run`, which is not under
`src/`: `RunResult`, then the error goes to standard error or the result to
standard output. -/
def Run {ρ : Type} (reply : Except RpcError ρ)
    (cb : ρ → Except Panic (Except RpcError Printed)) : Outcome :=
  match RunResult reply cb with
  | .error p => .panic p
  | .ok (.error err) => .stderr (.rpc err)
  | .ok (.ok v) => .printed v

/-! ## Reply projectors -/

/-- The projector `parseListAccountRes`. -/
def parseListAccountRes (Coin : Int) (res : rpctypes.WalletAccounts) :
    Except Panic (Except RpcError AccountsResult) :=
  let result : List WalletResult := res.Wallets.foldl (fun wallets r =>
    let balanceResult := decodeAmount Coin r.Acc.Balance
    let frozenResult := decodeAmount Coin r.Acc.Frozen
    let accResult : AccountResult :=
      { Currency := r.Acc.Currency, Addr := r.Acc.Addr,
        Balance := balanceResult, Frozen := frozenResult }
    wallets ++ [{ Acc := accResult, Label := r.Label }]) []
  .ok (.ok { Wallets := result })

/-- The projector `parseGetBalanceRes` on the decoded `[]*rpctypes.Account`:
`res[0]` panics on an empty reply and `res[0].Balance` on a nil first
element. -/
def parseGetBalanceRes (Coin : Int) (res : List (Option rpctypes.Account)) :
    Except Panic (Except RpcError AccountResult) :=
  match res with
  | [] => .error (.indexOutOfRange 0 0)
  | none :: _ => .error .nilDereference
  | some r0 :: _ =>
    let balanceResult := decodeAmount Coin r0.Balance
    let frozenResult := decodeAmount Coin r0.Frozen
    .ok (.ok { Addr := r0.Addr, Currency := r0.Currency,
               Balance := balanceResult, Frozen := frozenResult })

/-- The projector `parseGetAllBalanceRes`; the `Addr` of each inner
`AccountResult` is left at its zero value. -/
def parseGetAllBalanceRes (Coin : Int) (res : rpctypes.AllExecBalance) :
    Except Panic (Except RpcError AllExecBalance) :=
  let accs := res.ExecAccount
  let result : List ExecAccount := accs.foldl (fun execAccount acc =>
    let balanceResult := decodeAmount Coin acc.Account.Balance
    let frozenResult := decodeAmount Coin acc.Account.Frozen
    let ar : AccountResult :=
      { Currency := acc.Account.Currency, Balance := balanceResult,
        Frozen := frozenResult, Addr := "" }
    execAccount ++ [{ Execer := acc.Execer, Account := ar }]) []
  .ok (.ok { Addr := res.Addr, ExecAccount := result })

/-- Modelled from the spec: `DecodeAccount` of `commands/types`, which is not
under `src/`: the account snapshot with both amounts decoded. -/
def DecodeAccount (acc : types.Account) (precision : Int) : AccountResult :=
  { Currency := acc.Currency, Addr := acc.Addr,
    Balance := decodeAmount precision acc.Balance,
    Frozen := decodeAmount precision acc.Frozen }

/-- The projector `parseSetLabelRes`. -/
def parseSetLabelRes (Coin : Int) (res : types.WalletAccount) :
    Except Panic (Except RpcError WalletResult) :=
  let accResult := DecodeAccount res.Acc Coin
  .ok (.ok { Acc := accResult, Label := res.Label })

/-- Lifts a projector to a result callback: the record is what gets printed. -/
def asCallback {ρ α : Type} (wrap : α → Printed)
    (parse : ρ → Except Panic (Except RpcError α)) : ρ → Except Panic (Except RpcError Printed) :=
  fun res => match parse res with
    | .error p => .error p
    | .ok (.error err) => .ok (.error err)
    | .ok (.ok v) => .ok (.ok (wrap v))

/-! ## Handlers -/

/-- The handler `dumpKey`: no result callback, the reply itself is printed. -/
def dumpKey (env : Env) (addr : String) : Exec :=
  let params : types.ReqString := { Data := addr }
  { trace := [.DumpPrivkey params],
    outcome := Run (env.node.DumpPrivkey params) (fun res => .ok (.ok (.reply res))) }

/-- The handler `listAccount`. -/
def listAccount (env : Env) : Exec :=
  { trace := [.GetAccounts],
    outcome := Run env.node.GetAccounts (asCallback .accounts (parseListAccountRes env.Coin)) }

/-- The handler `setLabel`. -/
def setLabel (env : Env) (addr label : String) : Exec :=
  let params : types.ReqWalletSetLabel := { Addr := addr, Label := label }
  { trace := [.SetLabl params],
    outcome := Run (env.node.SetLabl params) (asCallback .wallet (parseSetLabelRes env.Coin)) }

/-- The end of `balance`, from `var addrs []string` on: the `GetBalance` call
with the resolved state hash, after the RPCs in `issued`. -/
def balanceFetch (env : Env) (issued : List Rpc) (addr execer stateHash : String) : Exec :=
  let addrs : List String := [] ++ [addr]
  let params : types.ReqBalance :=
    { Addresses := addrs, Execer := execer, StateHash := stateHash }
  { trace := issued ++ [.GetBalance params],
    outcome := Run (env.node.GetBalance params) (asCallback .account (parseGetBalanceRes env.Coin)) }

/-- The handler `balance`, on the flags `addr`, `exec` and `height`. -/
def balance (env : Env) (addr execer : String) (height : Int) : Exec :=
  match env.CheckAddress addr with
  | some _ => { trace := [], outcome := .stderr .ErrInvalidAddress }
  | none =>
    if execer = "" then
      let req : types.ReqAddr := { Addr := addr }
      { trace := [.GetAllExecBalance req],
        outcome := Run (env.node.GetAllExecBalance req)
          (asCallback .allExec (parseGetAllBalanceRes env.Coin)) }
    else if env.IsAllowExecName execer execer = false then
      { trace := [], outcome := .stderr .ErrExecNameNotAllow }
    else if height ≥ 0 then
      let params : types.ReqBlocks := { Start := height, End := height, IsDetail := false }
      match env.node.GetHeaders params with
      | .error err => { trace := [.GetHeaders params], outcome := .stderr (.rpc err) }
      | .ok res =>
        match res.Items with
        | [] => { trace := [.GetHeaders params], outcome := .panic (.indexOutOfRange 0 0) }
        | none :: _ => { trace := [.GetHeaders params], outcome := .panic .nilDereference }
        | some h :: _ => balanceFetch env [.GetHeaders params] addr execer h.StateHash
    else balanceFetch env [] addr execer ""

/-- The state hash `balance` hands to `GetBalance`: empty below height 0,
else the state hash of the first header of a successful `GetHeaders` reply,
which has to be there and not nil. -/
def HeightResolve (env : Env) (height : Int) (stateHash : String) : Prop :=
  (height < 0 ∧ stateHash = "") ∨
  (0 ≤ height ∧ ∃ (h : rpctypes.Header) (rest : List (Option rpctypes.Header)),
    env.node.GetHeaders { Start := height, End := height, IsDetail := false }
      = .ok { Items := some h :: rest } ∧ stateHash = h.StateHash)

/-! ## Concrete collaborators -/

/-- A node that answers every call: one header with state hash `H` at the
asked height, one account of balance 99990000 for the first asked address. -/
def answeringNode : Node :=
  { DumpPrivkey := fun _ => .ok { Data := "key" },
    GetAccounts := .ok { Wallets := [] },
    GetAllExecBalance := fun req => .ok { Addr := req.Addr, ExecAccount := [] },
    GetHeaders := fun params =>
      .ok { Items := [some { Height := params.Start, StateHash := "H" }] },
    GetBalance := fun params =>
      .ok [some { Currency := 0, Balance := 99990000, Frozen := 0,
                  Addr := params.Addresses.headD "" }],
    SetLabl := fun params =>
      .ok { Acc := { Currency := 0, Balance := 0, Frozen := 0, Addr := params.Addr },
            Label := params.Label } }

/-- A node whose `GetBalance` reply is the JSON list `[null]`: every call
succeeds and the decoded list holds one nil element. -/
def nullAccountNode : Node :=
  { DumpPrivkey := fun _ => .ok { Data := "key" },
    GetAccounts := .ok { Wallets := [] },
    GetAllExecBalance := fun req => .ok { Addr := req.Addr, ExecAccount := [] },
    GetHeaders := fun params =>
      .ok { Items := [some { Height := params.Start, StateHash := "H" }] },
    GetBalance := fun _ => .ok [none],
    SetLabl := fun params =>
      .ok { Acc := { Currency := 0, Balance := 0, Frozen := 0, Addr := params.Addr },
            Label := params.Label } }

/-- A node on which every call fails. -/
def refusingNode : Node :=
  { DumpPrivkey := fun _ => .error "connection refused",
    GetAccounts := .error "connection refused",
    GetAllExecBalance := fun _ => .error "connection refused",
    GetHeaders := fun _ => .error "connection refused",
    GetBalance := fun _ => .error "connection refused",
    SetLabl := fun _ => .error "connection refused" }

/-- An environment with unit 10000 in which `A1` is the one valid address
and `coins` the one allowed executor name. -/
def sampleEnv (node : Node) : Env :=
  { CheckAddress := fun addr => if addr = "A1" then none else some "invalid address",
    IsAllowExecName := fun name _ => name == "coins",
    Coin := 10000,
    node := node }

/-! ## Lemmas on rounding and printing -/

theorem rneDiv_spec (n d : Nat) (hd : 0 < d) :
    2 * n ≤ 2 * (d * rneDiv n d) + d ∧ 2 * (d * rneDiv n d) ≤ 2 * n + d ∧
    ((2 * n = 2 * (d * rneDiv n d) + d ∨ 2 * (d * rneDiv n d) = 2 * n + d) → rneDiv n d % 2 = 0) := by
  have h1 : d * (n / d) + n % d = n := Nat.div_add_mod n d
  have h2 : n % d < d := Nat.mod_lt n hd
  unfold rneDiv
  simp only
  split_ifs with a b c
  · refine ⟨by omega, by omega, ?_⟩
    rintro (h | h) <;> omega
  · rw [Nat.mul_add, Nat.mul_one]
    refine ⟨by omega, by omega, ?_⟩
    rintro (h | h) <;> omega
  · refine ⟨by omega, by omega, ?_⟩
    intro _; exact c
  · rw [Nat.mul_add, Nat.mul_one]
    refine ⟨by omega, by omega, ?_⟩
    intro _; omega

theorem rneDiv_mono (n1 d1 n2 d2 : Nat) (h1 : 0 < d1) (h2 : 0 < d2)
    (h : n1 * d2 ≤ n2 * d1) : rneDiv n1 d1 ≤ rneDiv n2 d2 := by
  obtain ⟨a1, a2, a3⟩ := rneDiv_spec n1 d1 h1
  obtain ⟨b1, b2, b3⟩ := rneDiv_spec n2 d2 h2
  by_contra hlt
  push_neg at hlt
  -- r2 + 1 ≤ r1
  set r1 := rneDiv n1 d1
  set r2 := rneDiv n2 d2
  -- 2 d1 r1 ≤ 2 n1 + d1 ;  2 n2 ≤ 2 d2 r2 + d2
  -- multiply: 2 d1 d2 r1 ≤ 2 n1 d2 + d1 d2 ≤ 2 n2 d1 + d1 d2 ≤ 2 d1 d2 r2 + 2 d1 d2
  have e1 : 2 * (d1 * r1) * d2 ≤ (2 * n1 + d1) * d2 := Nat.mul_le_mul_right _ a2
  have e2 : 2 * n2 * d1 ≤ (2 * (d2 * r2) + d2) * d1 := Nat.mul_le_mul_right _ b1
  have e3 : d1 * d2 * (r2 + 1) ≤ d1 * d2 * r1 := Nat.mul_le_mul_left _ hlt
  have hpos : 0 < d1 * d2 := Nat.mul_pos h1 h2
  have key1 : 2 * (d1 * r1) * d2 = (2 * n1 + d1) * d2 := by nlinarith
  have key2 : 2 * n2 * d1 = (2 * (d2 * r2) + d2) * d1 := by nlinarith
  have key3 : d1 * d2 * (r2 + 1) = d1 * d2 * r1 := by nlinarith
  have k1 : 2 * (d1 * r1) = 2 * n1 + d1 := Nat.eq_of_mul_eq_mul_right h2 key1
  have k2 : 2 * n2 = 2 * (d2 * r2) + d2 := Nat.eq_of_mul_eq_mul_right h1 key2
  have k3 : r2 + 1 = r1 := Nat.eq_of_mul_eq_mul_left hpos key3
  have p1 := a3 (Or.inr k1)
  have p2 := b3 (Or.inl k2)
  omega

theorem rneDiv_exact (k d : Nat) (hd : 0 < d) : rneDiv (k * d) d = k := by
  unfold rneDiv
  simp [Nat.mul_mod_left, Nat.mul_div_cancel _ hd, hd]

theorem log2Fuel_spec (fuel : Nat) : ∀ n : Nat, n ≤ fuel → 0 < n →
    2 ^ log2Fuel fuel n ≤ n ∧ n < 2 ^ (log2Fuel fuel n + 1) := by
  induction fuel with
  | zero => intro n h1 h2; omega
  | succ f ih =>
    intro n h1 h2
    unfold log2Fuel
    split_ifs with c
    · simp; omega
    · have hle : n / 2 ≤ f := by omega
      have hpos : 0 < n / 2 := by omega
      obtain ⟨i1, i2⟩ := ih (n / 2) hle hpos
      rw [pow_succ, pow_succ]
      generalize 2 ^ log2Fuel f (n / 2) = p at i1 i2 ⊢
      rw [pow_succ] at i2
      omega

theorem ilog2_spec (n : Nat) (h : 0 < n) : 2 ^ ilog2 n ≤ n ∧ n < 2 ^ (ilog2 n + 1) :=
  log2Fuel_spec n n le_rfl h

theorem two_zpow_split (e : Int) : ((2 : ℚ) ^ e.toNat) / (2 : ℚ) ^ (-e).toNat = (2 : ℚ) ^ e := by
  rcases le_total 0 e with h | h
  · have h1 : (-e).toNat = 0 := by omega
    rw [h1, pow_zero, div_one]
    conv_rhs => rw [← Int.toNat_of_nonneg h]
    rw [zpow_natCast]
  · have h1 : e.toNat = 0 := by omega
    have h2 : e = -(((-e).toNat : ℕ) : ℤ) := by omega
    rw [h1, pow_zero]
    conv_rhs => rw [h2]
    rw [zpow_neg, zpow_natCast, one_div]

theorem scaled_cast (n d : Nat) (e : Int) :
    (((n * 2 ^ (-e).toNat : ℕ) : ℚ)) / ((d * 2 ^ e.toNat : ℕ) : ℚ) = ((n : ℚ) / d) / (2 : ℚ) ^ e := by
  rw [← two_zpow_split e]
  push_cast
  have h1 : ((2 : ℚ) ^ e.toNat) ≠ 0 := by positivity
  have h2 : ((2 : ℚ) ^ (-e).toNat) ≠ 0 := by positivity
  by_cases hd : (d : ℚ) = 0
  · simp [hd]
  · field_simp

theorem floorLog2_spec (n d : Nat) (hn : 0 < n) (hd : 0 < d) :
    (2 : ℚ) ^ floorLog2 n d ≤ (n : ℚ) / d ∧ (n : ℚ) / d < (2 : ℚ) ^ (floorLog2 n d + 1) := by
  obtain ⟨a1, a2⟩ := ilog2_spec n hn
  obtain ⟨b1, b2⟩ := ilog2_spec d hd
  have hdq : (0 : ℚ) < d := by exact_mod_cast hd
  have a1q : (2 : ℚ) ^ (ilog2 n : ℤ) ≤ n := by rw [zpow_natCast]; exact_mod_cast a1
  have a2q : (n : ℚ) < (2 : ℚ) ^ ((ilog2 n : ℤ) + 1) := by
    have : ((ilog2 n : ℤ) + 1) = ((ilog2 n + 1 : ℕ) : ℤ) := by push_cast; rfl
    rw [this, zpow_natCast]; exact_mod_cast a2
  have b1q : (2 : ℚ) ^ (ilog2 d : ℤ) ≤ d := by rw [zpow_natCast]; exact_mod_cast b1
  have b2q : (d : ℚ) < (2 : ℚ) ^ ((ilog2 d : ℤ) + 1) := by
    have : ((ilog2 d : ℤ) + 1) = ((ilog2 d + 1 : ℕ) : ℤ) := by push_cast; rfl
    rw [this, zpow_natCast]; exact_mod_cast b2
  have two_pos : ∀ z : ℤ, (0 : ℚ) < (2 : ℚ) ^ z := fun z => by positivity
  unfold floorLog2
  simp only
  set k : ℤ := (ilog2 n : ℤ) - (ilog2 d : ℤ) with hk
  have hcond : (n * 2 ^ (-k).toNat < d * 2 ^ k.toNat) ↔ (n : ℚ) / d < (2 : ℚ) ^ k := by
    have hden : (0 : ℚ) < ((d * 2 ^ k.toNat : ℕ) : ℚ) := by
      have : 0 < d * 2 ^ k.toNat := Nat.mul_pos hd (by positivity)
      exact_mod_cast this
    rw [← Nat.cast_lt (α := ℚ), ← div_lt_one hden, scaled_cast, div_lt_one (two_pos k)]
  split_ifs with c
  · rw [hcond] at c
    refine ⟨?_, by simpa using c⟩
    -- 2^(k-1) ≤ n/d
    rw [le_div_iff₀ hdq]
    have : (2 : ℚ) ^ (k - 1) * (2 : ℚ) ^ ((ilog2 d : ℤ) + 1) = (2 : ℚ) ^ (ilog2 n : ℤ) := by
      rw [← zpow_add₀ (by norm_num : (2 : ℚ) ≠ 0)]; congr 1; omega
    calc (2 : ℚ) ^ (k - 1) * d ≤ (2 : ℚ) ^ (k - 1) * (2 : ℚ) ^ ((ilog2 d : ℤ) + 1) := by
          apply mul_le_mul_of_nonneg_left b2q.le (two_pos _).le
      _ = (2 : ℚ) ^ (ilog2 n : ℤ) := this
      _ ≤ n := a1q
  · rw [hcond, not_lt] at c
    refine ⟨c, ?_⟩
    rw [div_lt_iff₀ hdq]
    have : (2 : ℚ) ^ (k + 1) * (2 : ℚ) ^ (ilog2 d : ℤ) = (2 : ℚ) ^ ((ilog2 n : ℤ) + 1) := by
      rw [← zpow_add₀ (by norm_num : (2 : ℚ) ≠ 0)]; congr 1; omega
    calc (n : ℚ) < (2 : ℚ) ^ ((ilog2 n : ℤ) + 1) := a2q
      _ = (2 : ℚ) ^ (k + 1) * (2 : ℚ) ^ (ilog2 d : ℤ) := this.symm
      _ ≤ (2 : ℚ) ^ (k + 1) * d := by
          apply mul_le_mul_of_nonneg_left b1q (two_pos _).le

theorem sig_bounds (n d : Nat) (hn : 0 < n) (hd : 0 < d) :
    2 ^ 52 ≤ sig n d ∧ sig n d ≤ 2 ^ 53 := by
  obtain ⟨l1, l2⟩ := floorLog2_spec n d hn hd
  set e := floorLog2 n d - 52 with he
  have hD : 0 < d * 2 ^ e.toNat := Nat.mul_pos hd (by positivity)
  have hDq : (0 : ℚ) < ((d * 2 ^ e.toNat : ℕ) : ℚ) := by exact_mod_cast hD
  have hsc := scaled_cast n d e
  have two_pos : ∀ z : ℤ, (0 : ℚ) < (2 : ℚ) ^ z := fun z => by positivity
  have hlo : (2 : ℚ) ^ (52 : ℕ) ≤ ((n : ℚ) / d) / (2 : ℚ) ^ e := by
    rw [le_div_iff₀ (two_pos e), ← zpow_natCast, ← zpow_add₀ (by norm_num : (2 : ℚ) ≠ 0)]
    have : ((52 : ℕ) : ℤ) + e = floorLog2 n d := by rw [he]; push_cast; ring
    rw [this]; exact l1
  have hhi : ((n : ℚ) / d) / (2 : ℚ) ^ e < (2 : ℚ) ^ (53 : ℕ) := by
    rw [div_lt_iff₀ (two_pos e), ← zpow_natCast, ← zpow_add₀ (by norm_num : (2 : ℚ) ≠ 0)]
    have : ((53 : ℕ) : ℤ) + e = floorLog2 n d + 1 := by rw [he]; push_cast; ring
    rw [this]; exact l2
  rw [← hsc] at hlo hhi
  rw [le_div_iff₀ hDq] at hlo
  rw [div_lt_iff₀ hDq] at hhi
  have hloN : 2 ^ 52 * (d * 2 ^ e.toNat) ≤ n * 2 ^ (-e).toNat := by exact_mod_cast hlo
  have hhiN : n * 2 ^ (-e).toNat < 2 ^ 53 * (d * 2 ^ e.toNat) := by exact_mod_cast hhi
  constructor
  · have := rneDiv_mono (2 ^ 52 * (d * 2 ^ e.toNat)) (d * 2 ^ e.toNat) (n * 2 ^ (-e).toNat)
      (d * 2 ^ e.toNat) hD hD (Nat.mul_le_mul_right _ hloN)
    rwa [rneDiv_exact _ _ hD] at this
  · have := rneDiv_mono (n * 2 ^ (-e).toNat) (d * 2 ^ e.toNat) (2 ^ 53 * (d * 2 ^ e.toNat))
      (d * 2 ^ e.toNat) hD hD (Nat.mul_le_mul_right _ hhiN.le)
    rwa [rneDiv_exact _ _ hD] at this

theorem roundFloat64_neg (neg : Bool) (n d : Nat) : (roundFloat64 neg n d).neg = neg := by
  unfold roundFloat64
  by_cases h : n = 0
  · simp [h]
  · simp only [h, if_false]
    split_ifs <;> rfl

theorem roundFloat64_zero (neg : Bool) (d : Nat) : roundFloat64 neg 0 d = ⟨neg, 0, 0⟩ := by
  simp [roundFloat64]

theorem roundFloat64_mag (neg : Bool) (n d : Nat) (hn : 0 < n) :
    (roundFloat64 neg n d).mag = (sig n d : ℚ) * (2 : ℚ) ^ (floorLog2 n d - 52) := by
  unfold roundFloat64 Float64.mag
  rw [if_neg (by omega)]
  simp only
  split_ifs with c
  · simp only [sig, c]
    rw [zpow_add₀ (by norm_num : (2 : ℚ) ≠ 0)]
    push_cast
    ring
  · rfl

theorem roundFloat64_mant (neg : Bool) (n d : Nat) (hn : 0 < n) (hd : 0 < d) :
    2 ^ 52 ≤ (roundFloat64 neg n d).mant ∧ (roundFloat64 neg n d).mant < 2 ^ 53 := by
  obtain ⟨s1, s2⟩ := sig_bounds n d hn hd
  unfold roundFloat64
  rw [if_neg (by omega)]
  simp only
  split_ifs with c
  · simp
  · simp only
    change 2 ^ 52 ≤ sig n d ∧ sig n d < 2 ^ 53
    have : sig n d ≠ 2 ^ 53 := c
    omega

theorem roundFloat64_mag_mono (b1 b2 : Bool) (n1 d1 n2 d2 : Nat) (hd1 : 0 < d1) (hd2 : 0 < d2)
    (h : (n1 : ℚ) / d1 ≤ (n2 : ℚ) / d2) :
    (roundFloat64 b1 n1 d1).mag ≤ (roundFloat64 b2 n2 d2).mag := by
  have two_pos : ∀ z : ℤ, (0 : ℚ) < (2 : ℚ) ^ z := fun z => by positivity
  have hd1q : (0 : ℚ) < d1 := by exact_mod_cast hd1
  have hd2q : (0 : ℚ) < d2 := by exact_mod_cast hd2
  rcases Nat.eq_zero_or_pos n1 with z1 | hn1
  · subst z1
    rw [roundFloat64_zero]
    have : (Float64.mag ⟨b1, 0, 0⟩) = 0 := by simp [Float64.mag]
    rw [this]
    unfold Float64.mag
    positivity
  have hn2 : 0 < n2 := by
    rcases Nat.eq_zero_or_pos n2 with z2 | hn2
    · subst z2
      have hpos : (0 : ℚ) < (n1 : ℚ) / d1 := div_pos (by exact_mod_cast hn1) hd1q
      simp at h
      linarith
    · exact hn2
  rw [roundFloat64_mag _ _ _ hn1, roundFloat64_mag _ _ _ hn2]
  obtain ⟨l1, u1⟩ := floorLog2_spec n1 d1 hn1 hd1
  obtain ⟨l2, u2⟩ := floorLog2_spec n2 d2 hn2 hd2
  obtain ⟨s1, v1⟩ := sig_bounds n1 d1 hn1 hd1
  obtain ⟨s2, v2⟩ := sig_bounds n2 d2 hn2 hd2
  set L1 := floorLog2 n1 d1 with hL1
  set L2 := floorLog2 n2 d2 with hL2
  have hLle : L1 ≤ L2 := by
    by_contra hc
    push_neg at hc
    have : (2 : ℚ) ^ (L2 + 1) ≤ (2 : ℚ) ^ L1 :=
      zpow_le_zpow_right₀ (by norm_num) (by omega)
    linarith
  rcases eq_or_lt_of_le hLle with heq | hlt
  · -- same binade
    rw [← heq]
    apply mul_le_mul_of_nonneg_right _ (two_pos _).le
    have hm : sig n1 d1 ≤ sig n2 d2 := by
      unfold sig
      rw [← hL1, ← hL2, ← heq]
      set e := L1 - 52
      have hD1 : 0 < d1 * 2 ^ e.toNat := Nat.mul_pos hd1 (by positivity)
      have hD2 : 0 < d2 * 2 ^ e.toNat := Nat.mul_pos hd2 (by positivity)
      apply rneDiv_mono _ _ _ _ hD1 hD2
      have hD1q : (0 : ℚ) < ((d1 * 2 ^ e.toNat : ℕ) : ℚ) := by exact_mod_cast hD1
      have hD2q : (0 : ℚ) < ((d2 * 2 ^ e.toNat : ℕ) : ℚ) := by exact_mod_cast hD2
      have hq : ((n1 * 2 ^ (-e).toNat : ℕ) : ℚ) / ((d1 * 2 ^ e.toNat : ℕ) : ℚ)
          ≤ ((n2 * 2 ^ (-e).toNat : ℕ) : ℚ) / ((d2 * 2 ^ e.toNat : ℕ) : ℚ) := by
        rw [scaled_cast, scaled_cast]
        exact div_le_div_of_nonneg_right h (two_pos e).le
      rw [div_le_div_iff₀ hD1q hD2q] at hq
      exact_mod_cast hq
    exact_mod_cast hm
  · -- lower binade: at most 2^53 * 2^e1 ≤ 2^52 * 2^e2
    have s1q : (sig n1 d1 : ℚ) ≤ (2 : ℚ) ^ (53 : ℕ) := by exact_mod_cast v1
    have s2q : (2 : ℚ) ^ (52 : ℕ) ≤ (sig n2 d2 : ℚ) := by exact_mod_cast s2
    calc (sig n1 d1 : ℚ) * (2 : ℚ) ^ (L1 - 52)
        ≤ (2 : ℚ) ^ (53 : ℕ) * (2 : ℚ) ^ (L1 - 52) :=
          mul_le_mul_of_nonneg_right s1q (two_pos _).le
      _ = (2 : ℚ) ^ (L1 + 1) := by
          rw [← zpow_natCast, ← zpow_add₀ (by norm_num : (2 : ℚ) ≠ 0)]; congr 1; push_cast; ring
      _ ≤ (2 : ℚ) ^ L2 := zpow_le_zpow_right₀ (by norm_num) (by omega)
      _ = (2 : ℚ) ^ (52 : ℕ) * (2 : ℚ) ^ (L2 - 52) := by
          rw [← zpow_natCast, ← zpow_add₀ (by norm_num : (2 : ℚ) ≠ 0)]; congr 1; push_cast; ring
      _ ≤ (sig n2 d2 : ℚ) * (2 : ℚ) ^ (L2 - 52) :=
          mul_le_mul_of_nonneg_right s2q (two_pos _).le

theorem digitChar_isDigit (d : Nat) (h : d < 10) : (Nat.digitChar d).isDigit = true := by
  interval_cases d <;> decide

theorem digitVal_digitChar (d : Nat) (h : d < 10) : digitVal (Nat.digitChar d) = d := by
  interval_cases d <;> decide

theorem isDigit_ne_dot (c : Char) (h : c.isDigit = true) : (c != '.') = true := by
  simp only [bne_iff_ne, ne_eq]
  rintro rfl
  exact absurd h (by decide)

theorem isDigit_ne_minus (c : Char) (h : c.isDigit = true) : c ≠ '-' := by
  rintro rfl
  exact absurd h (by decide)

theorem parseNat_foldl (ys : List Char) : ∀ a : Nat,
    ys.foldl (fun a c => a * 10 + digitVal c) a
      = a * 10 ^ ys.length + ys.foldl (fun a c => a * 10 + digitVal c) 0 := by
  induction ys with
  | nil => intro a; simp
  | cons y ys ih =>
    intro a
    simp only [List.foldl_cons, List.length_cons]
    rw [ih (a * 10 + digitVal y), ih (0 * 10 + digitVal y), pow_succ]
    ring

theorem parseNat_append (xs ys : List Char) :
    parseNat (xs ++ ys) = parseNat xs * 10 ^ ys.length + parseNat ys := by
  unfold parseNat
  rw [List.foldl_append, parseNat_foldl]

theorem toDigitsCore_append (fuel : Nat) : ∀ (n : Nat) (ds : List Char),
    Nat.toDigitsCore 10 fuel n ds = Nat.toDigitsCore 10 fuel n [] ++ ds := by
  induction fuel with
  | zero => intro n ds; simp [Nat.toDigitsCore]
  | succ f ih =>
    intro n ds
    simp only [Nat.toDigitsCore]
    split_ifs with c
    · simp
    · rw [ih (n / 10) (Nat.digitChar (n % 10) :: ds), ih (n / 10) [Nat.digitChar (n % 10)]]
      simp

theorem toDigitsCore_spec (fuel : Nat) : ∀ n : Nat, n < fuel →
    parseNat (Nat.toDigitsCore 10 fuel n []) = n ∧
    (∀ c ∈ Nat.toDigitsCore 10 fuel n [], c.isDigit = true) ∧ Nat.toDigitsCore 10 fuel n [] ≠ [] := by
  induction fuel with
  | zero => intro n h; omega
  | succ f ih =>
    intro n h
    simp only [Nat.toDigitsCore]
    have hm : n % 10 < 10 := Nat.mod_lt _ (by norm_num)
    split_ifs with c
    · have hn : n % 10 = n := by omega
      refine ⟨?_, ?_, by simp⟩
      · have hv := digitVal_digitChar _ hm
        rw [hn] at hv ⊢
        simp [parseNat, hv]
      · intro ch hch
        simp only [List.mem_singleton] at hch
        rw [hch]; exact digitChar_isDigit _ hm
    · have hlt : n / 10 < f := by omega
      obtain ⟨i1, i2, i3⟩ := ih (n / 10) hlt
      rw [toDigitsCore_append]
      refine ⟨?_, ?_, by simp [i3]⟩
      · rw [parseNat_append, i1]
        simp [parseNat, digitVal_digitChar _ hm]
        omega
      · intro ch hch
        simp only [List.mem_append, List.mem_singleton] at hch
        rcases hch with hch | hch
        · exact i2 ch hch
        · rw [hch]; exact digitChar_isDigit _ hm

theorem toDigits_spec (n : Nat) :
    parseNat (Nat.toDigits 10 n) = n ∧ (∀ c ∈ Nat.toDigits 10 n, c.isDigit = true) ∧
    Nat.toDigits 10 n ≠ [] :=
  toDigitsCore_spec (n + 1) n (Nat.lt_succ_self n)

theorem fracDigits_spec (p : Nat) : ∀ m : Nat,
    parseNat (fracDigits p m) = m % 10 ^ p ∧ (fracDigits p m).length = p ∧
    (∀ c ∈ fracDigits p m, c.isDigit = true) := by
  induction p with
  | zero => intro m; simp [fracDigits, parseNat, Nat.mod_one]
  | succ p ih =>
    intro m
    obtain ⟨i1, i2, i3⟩ := ih m
    have hm : m / 10 ^ p % 10 < 10 := Nat.mod_lt _ (by norm_num)
    simp only [fracDigits]
    refine ⟨?_, by simp [i2], ?_⟩
    · have : Nat.digitChar (m / 10 ^ p % 10) :: fracDigits p m
          = [Nat.digitChar (m / 10 ^ p % 10)] ++ fracDigits p m := rfl
      rw [this, parseNat_append, i1, i2]
      simp only [parseNat, List.foldl_cons, List.foldl_nil, zero_mul, zero_add,
        digitVal_digitChar _ hm]
      rw [pow_succ, Nat.mod_mul]
      ring
    · intro ch hch
      simp only [List.mem_cons] at hch
      rcases hch with hch | hch
      · rw [hch]; exact digitChar_isDigit _ hm
      · exact i3 ch hch

theorem takeWhile_dropWhile_sep (p : Char → Bool) (x : Char) (fp : List Char) (hx : p x = false) :
    ∀ ip : List Char, (∀ c ∈ ip, p c = true) →
      (ip ++ x :: fp).takeWhile p = ip ∧ (ip ++ x :: fp).dropWhile p = x :: fp := by
  intro ip
  induction ip with
  | nil => intro _; simp [List.takeWhile, List.dropWhile, hx]
  | cons a ip ih =>
    intro h
    have ha : p a = true := h a (List.mem_cons_self _ _)
    obtain ⟨i1, i2⟩ := ih (fun c hc => h c (List.mem_cons_of_mem _ hc))
    simp [List.takeWhile, List.dropWhile, ha, i1, i2]

theorem fmtF_data (neg : Bool) (N prec : Nat) (hp : 0 < prec) :
    (fmtF neg N prec).data =
      (if neg then ['-'] else []) ++ Nat.toDigits 10 (N / 10 ^ prec) ++
        '.' :: fracDigits prec (N % 10 ^ prec) := by
  unfold fmtF
  simp [Nat.pos_iff_ne_zero.mp hp]

theorem decimalValue_fmtF (neg : Bool) (N prec : Nat) (hp : 0 < prec) :
    decimalValue (fmtF neg N prec) =
      if neg then -((N : ℚ) / (10 : ℚ) ^ prec) else (N : ℚ) / (10 : ℚ) ^ prec := by
  obtain ⟨d1, d2, d3⟩ := toDigits_spec (N / 10 ^ prec)
  obtain ⟨f1, f2, f3⟩ := fracDigits_spec prec (N % 10 ^ prec)
  have hdot : ((fun c : Char => c != '.') '.') = false := by decide
  obtain ⟨t1, t2⟩ := takeWhile_dropWhile_sep (fun c => c != '.') '.'
    (fracDigits prec (N % 10 ^ prec)) hdot (Nat.toDigits 10 (N / 10 ^ prec))
    (fun c hc => isDigit_ne_dot c (d2 c hc))
  have hval : ((N / 10 ^ prec : ℕ) : ℚ) + ((N % 10 ^ prec : ℕ) : ℚ) / (10 : ℚ) ^ prec
      = (N : ℚ) / (10 : ℚ) ^ prec := by
    have hP : ((10 : ℚ) ^ prec) ≠ 0 := by positivity
    have := Nat.div_add_mod N (10 ^ prec)
    have hq : ((10 ^ prec : ℕ) : ℚ) * ((N / 10 ^ prec : ℕ) : ℚ) + ((N % 10 ^ prec : ℕ) : ℚ) = (N : ℚ) := by
      exact_mod_cast this
    push_cast at hq
    field_simp
    linarith
  unfold decimalValue
  rw [fmtF_data _ _ _ hp]
  cases neg with
  | true =>
    simp only [if_true, List.cons_append, List.nil_append, List.head?_cons, beq_self_eq_true,
      List.tail_cons, t1, t2, d1, f1, f2, Nat.mod_mod, hval]
  | false =>
    have hhead : ((Nat.toDigits 10 (N / 10 ^ prec) ++ '.' :: fracDigits prec (N % 10 ^ prec)).head?
        == some '-') = false := by
      cases hl : Nat.toDigits 10 (N / 10 ^ prec) with
      | nil => exact absurd hl d3
      | cons a l =>
        have ha : a.isDigit = true := d2 a (by rw [hl]; exact List.mem_cons_self _ _)
        have hne := isDigit_ne_minus a ha
        simp [hne]
    simp only [Bool.false_eq_true, if_false, List.nil_append, hhead, t1, t2, List.tail_cons,
      d1, f1, f2, Nat.mod_mod, hval]

theorem signed_mono (G : ℕ → ℕ → ℚ) (hG0 : ∀ d, G 0 d = 0) (hGnn : ∀ n d, 0 ≤ G n d)
    (hGm : ∀ n1 d1 n2 d2 : ℕ, 0 < d1 → 0 < d2 → (n1 : ℚ) / d1 ≤ (n2 : ℚ) / d2 → G n1 d1 ≤ G n2 d2)
    (b1 b2 : Bool) (n1 d1 n2 d2 : ℕ) (hd1 : 0 < d1) (hd2 : 0 < d2)
    (h : (if b1 then -((n1 : ℚ) / d1) else (n1 : ℚ) / d1)
        ≤ (if b2 then -((n2 : ℚ) / d2) else (n2 : ℚ) / d2)) :
    (if b1 then -(G n1 d1) else G n1 d1) ≤ (if b2 then -(G n2 d2) else G n2 d2) := by
  have hd1q : (0 : ℚ) < d1 := by exact_mod_cast hd1
  have hd2q : (0 : ℚ) < d2 := by exact_mod_cast hd2
  have q1 : (0 : ℚ) ≤ (n1 : ℚ) / d1 := by positivity
  have q2 : (0 : ℚ) ≤ (n2 : ℚ) / d2 := by positivity
  cases b1 <;> cases b2 <;> simp only [if_true, if_false, Bool.false_eq_true] at h ⊢
  · exact hGm _ _ _ _ hd1 hd2 h
  · have hz1 : (n1 : ℚ) / d1 = 0 := by linarith
    have hz2 : (n2 : ℚ) / d2 = 0 := by linarith
    have e1 : n1 = 0 := by
      rcases div_eq_zero_iff.mp hz1 with h0 | h0
      · exact_mod_cast h0
      · linarith
    have e2 : n2 = 0 := by
      rcases div_eq_zero_iff.mp hz2 with h0 | h0
      · exact_mod_cast h0
      · linarith
    rw [e1, e2, hG0, hG0]; simp
  · have := hGnn n1 d1
    have := hGnn n2 d2
    linarith
  · have := hGm _ _ _ _ hd2 hd1 (neg_le_neg_iff.mp h)
    linarith

theorem mag_nonneg (x : Float64) : 0 ≤ x.mag := by
  unfold Float64.mag; positivity

theorem roundFloat64_toRat (b : Bool) (n d : Nat) (hd : 0 < d) :
    (roundFloat64 b n d).toRat =
      if b then -(roundFloat64 false n d).mag else (roundFloat64 false n d).mag := by
  have hm : (roundFloat64 b n d).mag = (roundFloat64 false n d).mag :=
    le_antisymm (roundFloat64_mag_mono _ _ _ _ _ _ hd hd le_rfl)
      (roundFloat64_mag_mono _ _ _ _ _ _ hd hd le_rfl)
  unfold Float64.toRat
  rw [roundFloat64_neg, hm]

theorem roundFloat64_toRat_mono (b1 b2 : Bool) (n1 d1 n2 d2 : ℕ) (hd1 : 0 < d1) (hd2 : 0 < d2)
    (h : (if b1 then -((n1 : ℚ) / d1) else (n1 : ℚ) / d1)
        ≤ (if b2 then -((n2 : ℚ) / d2) else (n2 : ℚ) / d2)) :
    (roundFloat64 b1 n1 d1).toRat ≤ (roundFloat64 b2 n2 d2).toRat := by
  rw [roundFloat64_toRat _ _ _ hd1, roundFloat64_toRat _ _ _ hd2]
  apply signed_mono (fun n d => (roundFloat64 false n d).mag) _ _ _ b1 b2 n1 d1 n2 d2 hd1 hd2 h
  · intro d; simp [roundFloat64_zero, Float64.mag]
  · intro n d; exact mag_nonneg _
  · intro n1 d1 n2 d2 h1 h2 hle
    exact roundFloat64_mag_mono _ _ _ _ _ _ h1 h2 hle

theorem signed_natAbs (i : Int) :
    (if decide (i < 0) = true then -(((i.natAbs : ℕ) : ℚ) / ((1 : ℕ) : ℚ))
      else ((i.natAbs : ℕ) : ℚ) / ((1 : ℕ) : ℚ)) = (i : ℚ) := by
  simp only [Nat.cast_one, div_one, decide_eq_true_eq]
  have hcast : ((i.natAbs : ℕ) : ℚ) = (((i.natAbs : ℕ) : ℤ) : ℚ) := (Int.cast_natCast _).symm
  split_ifs with c
  · rw [hcast, Int.ofNat_natAbs_of_nonpos c.le]; push_cast; ring
  · rw [hcast, Int.natAbs_of_nonneg (not_lt.mp c)]

theorem float64OfInt_mono (i j : Int) (h : i ≤ j) :
    (float64OfInt i).toRat ≤ (float64OfInt j).toRat := by
  unfold float64OfInt
  apply roundFloat64_toRat_mono _ _ _ _ _ _ Nat.one_pos Nat.one_pos
  rw [signed_natAbs, signed_natAbs]
  exact_mod_cast h

theorem toRat_eq_signed (x : Float64) :
    x.toRat = if x.neg then -x.mag else x.mag := rfl

theorem div_input_cast (a c : Float64) (hc : 0 < c.mant) :
    (((a.mant * 2 ^ (-(c.exp - a.exp)).toNat : ℕ) : ℚ)) / ((c.mant * 2 ^ (c.exp - a.exp).toNat : ℕ) : ℚ)
      = a.mag / c.mag := by
  rw [scaled_cast]
  unfold Float64.mag
  have hcq : (c.mant : ℚ) ≠ 0 := by exact_mod_cast (Nat.pos_iff_ne_zero.mp hc)
  have h2 : ∀ z : ℤ, (2 : ℚ) ^ z ≠ 0 := fun z => by positivity
  rw [zpow_sub₀ (by norm_num : (2 : ℚ) ≠ 0)]
  field_simp

theorem div_mono (a1 a2 c : Float64) (hneg : c.neg = false) (hc : 0 < c.mant)
    (h : a1.toRat ≤ a2.toRat) : (a1.div c).toRat ≤ (a2.div c).toRat := by
  unfold Float64.div
  have hD : ∀ a : Float64, 0 < c.mant * 2 ^ (c.exp - a.exp).toNat :=
    fun a => Nat.mul_pos hc (by positivity)
  apply roundFloat64_toRat_mono _ _ _ _ _ _ (hD a1) (hD a2)
  rw [div_input_cast a1 c hc, div_input_cast a2 c hc, hneg]
  have hcm : 0 < c.mag := by
    unfold Float64.mag
    have : (0 : ℚ) < c.mant := by exact_mod_cast hc
    positivity
  have e : ∀ a : Float64, (if (xor a.neg false) = true then -(a.mag / c.mag) else a.mag / c.mag)
      = a.toRat / c.mag := by
    intro a
    rw [toRat_eq_signed]
    cases a.neg <;> simp [neg_div]
  rw [e a1, e a2]
  exact div_le_div_of_nonneg_right h hcm.le

theorem fmt_input_cast (x : Float64) (prec : Nat) :
    (((x.mant * 10 ^ prec * 2 ^ (- -x.exp).toNat : ℕ) : ℚ)) / ((1 * 2 ^ (-x.exp).toNat : ℕ) : ℚ)
      = x.mag * (10 : ℚ) ^ prec := by
  rw [scaled_cast]
  unfold Float64.mag
  rw [zpow_neg]
  push_cast
  field_simp
  ring

theorem decimalValue_FormatFloat (x : Float64) (prec : Nat) (hp : 0 < prec) :
    decimalValue (FormatFloat x prec) =
      if x.neg then
        -((rneDiv (x.mant * 10 ^ prec * 2 ^ (- -x.exp).toNat) (1 * 2 ^ (-x.exp).toNat) : ℕ) / (10 : ℚ) ^ prec)
      else (rneDiv (x.mant * 10 ^ prec * 2 ^ (- -x.exp).toNat) (1 * 2 ^ (-x.exp).toNat) : ℕ) / (10 : ℚ) ^ prec := by
  unfold FormatFloat
  rw [decimalValue_fmtF _ _ _ hp]

theorem FormatFloat_mono (x1 x2 : Float64) (prec : Nat) (hp : 0 < prec)
    (h : x1.toRat ≤ x2.toRat) :
    decimalValue (FormatFloat x1 prec) ≤ decimalValue (FormatFloat x2 prec) := by
  rw [decimalValue_FormatFloat _ _ hp, decimalValue_FormatFloat _ _ hp]
  have hD : ∀ x : Float64, 0 < 1 * 2 ^ (-x.exp).toNat := fun x => Nat.mul_pos Nat.one_pos (by positivity)
  have hP : (0 : ℚ) < (10 : ℚ) ^ prec := by positivity
  apply signed_mono (fun n d => ((rneDiv n d : ℕ) : ℚ) / (10 : ℚ) ^ prec) _ _ _ x1.neg x2.neg
    _ _ _ _ (hD x1) (hD x2)
  · rw [fmt_input_cast, fmt_input_cast]
    have e : ∀ x : Float64, (if x.neg = true then -(x.mag * (10 : ℚ) ^ prec) else x.mag * (10 : ℚ) ^ prec)
        = x.toRat * (10 : ℚ) ^ prec := by
      intro x
      rw [toRat_eq_signed]
      cases x.neg <;> simp
    rw [e x1, e x2]
    exact mul_le_mul_of_nonneg_right h hP.le
  · intro d
    simp [rneDiv]
  · intro n d; positivity
  · intro n1 d1 n2 d2 h1 h2 hle
    apply div_le_div_of_nonneg_right _ hP.le
    have h1q : (0 : ℚ) < d1 := by exact_mod_cast h1
    have h2q : (0 : ℚ) < d2 := by exact_mod_cast h2
    rw [div_le_div_iff₀ h1q h2q] at hle
    have : n1 * d2 ≤ n2 * d1 := by exact_mod_cast hle
    exact_mod_cast rneDiv_mono _ _ _ _ h1 h2 this

theorem float64OfInt_pos (coin : Int) (h : 0 < coin) :
    (float64OfInt coin).neg = false ∧ 0 < (float64OfInt coin).mant := by
  unfold float64OfInt
  constructor
  · rw [roundFloat64_neg]; simp; omega
  · have := (roundFloat64_mant (decide (coin < 0)) coin.natAbs 1 (by omega) Nat.one_pos).1
    have h52 : 0 < 2 ^ 52 := by positivity
    omega

theorem decodeAmount_mono (coin raw1 raw2 : Int) (hc : 0 < coin) (h : raw1 ≤ raw2) :
    decimalValue (decodeAmount coin raw1) ≤ decimalValue (decodeAmount coin raw2) := by
  unfold decodeAmount
  obtain ⟨c1, c2⟩ := float64OfInt_pos coin hc
  exact FormatFloat_mono _ _ 4 (by norm_num) (div_mono _ _ _ c1 c2 (float64OfInt_mono _ _ h))

theorem floorLog2_self (k : Nat) : floorLog2 k k = 0 := by
  unfold floorLog2
  simp

theorem roundFloat64_self (k : Nat) (hk : 0 < k) : roundFloat64 false k k = ⟨false, 2 ^ 52, -52⟩ := by
  unfold roundFloat64
  rw [if_neg (by omega), floorLog2_self]
  have h1 : (-(0 - 52 : ℤ)).toNat = 52 := by decide
  have h2 : ((0 - 52 : ℤ)).toNat = 0 := by decide
  simp only [h1, h2, pow_zero, Nat.mul_one]
  rw [Nat.mul_comm k (2 ^ 52), rneDiv_exact _ _ hk]
  simp

theorem div_same (c : Float64) (hc : 0 < c.mant) : c.div c = ⟨false, 2 ^ 52, -52⟩ := by
  unfold Float64.div
  simp only [sub_self, neg_zero, Int.toNat_zero, pow_zero, Nat.mul_one, Bool.xor_self]
  exact roundFloat64_self _ hc

theorem decodeAmount_unit (coin : Int) (hc : 0 < coin) : decodeAmount coin coin = "1.0000" := by
  unfold decodeAmount
  rw [div_same _ (float64OfInt_pos coin hc).2]
  decide

theorem decodeAmount_zero (coin : Int) (hc : 0 < coin) : decodeAmount coin 0 = "0.0000" := by
  unfold decodeAmount
  have h0 : float64OfInt 0 = ⟨false, 0, 0⟩ := by decide
  have hq : (Float64.div ⟨false, 0, 0⟩ (float64OfInt coin)) = ⟨false, 0, 0⟩ := by
    unfold Float64.div
    simp only [Nat.zero_mul, roundFloat64_zero, (float64OfInt_pos coin hc).1]
    rfl
  rw [h0, hq]
  decide

theorem FormatFloat_shape (x : Float64) (prec : Nat) (hp : 0 < prec) :
    ∃ ip fp : List Char, (FormatFloat x prec).data = ip ++ '.' :: fp ∧ fp.length = prec ∧
      (∀ c ∈ fp, c.isDigit = true) ∧ '.' ∉ ip := by
  unfold FormatFloat
  rw [fmtF_data _ _ _ hp]
  set N := rneDiv (x.mant * 10 ^ prec * 2 ^ (- -x.exp).toNat) (1 * 2 ^ (-x.exp).toNat)
  obtain ⟨_, d2, _⟩ := toDigits_spec (N / 10 ^ prec)
  obtain ⟨_, f2, f3⟩ := fracDigits_spec prec (N % 10 ^ prec)
  refine ⟨(if x.neg then ['-'] else []) ++ Nat.toDigits 10 (N / 10 ^ prec),
    fracDigits prec (N % 10 ^ prec), rfl, f2, f3, ?_⟩
  intro hmem
  rw [List.mem_append] at hmem
  rcases hmem with hm | hm
  · cases x.neg
    · simp at hm
    · simp at hm
  · exact absurd (d2 _ hm) (by decide)

/-! ## The balance command -/

/-- C1: with a valid address, a non-empty allowed executor name and a height
`h ≥ 0`, when `GetHeaders` answers with at least one header, `balance` issues
exactly `Chain33.GetHeaders` with `Start = End = h`, `IsDetail = false` and
then `Chain33.GetBalance` with `Addresses = [addr]`, the executor name and
the state hash of the first header; later headers play no part. -/
theorem balance_height_two_rpcs (env : Env) (addr execer : String) (height : Int)
    (h : rpctypes.Header) (rest : List (Option rpctypes.Header))
    (hAddr : env.CheckAddress addr = none) (hExec : execer ≠ "")
    (hAllow : env.IsAllowExecName execer execer = true) (hHeight : 0 ≤ height)
    (hHeaders : env.node.GetHeaders ⟨height, height, false⟩ = .ok ⟨some h :: rest⟩) :
    (balance env addr execer height).trace =
        [.GetHeaders ⟨height, height, false⟩, .GetBalance ⟨[addr], execer, h.StateHash⟩] ∧
      (balance env addr execer height).trace.map Rpc.method =
        ["Chain33.GetHeaders", "Chain33.GetBalance"] := by
  simp [balance, balanceFetch, hAddr, hExec, hAllow, hHeight, hHeaders, Rpc.method]

theorem balance_height_two_rpcs_witness :
    (balance (sampleEnv answeringNode) "A1" "coins" 100).trace =
        [.GetHeaders ⟨100, 100, false⟩, .GetBalance ⟨["A1"], "coins", "H"⟩] ∧
      (balance (sampleEnv answeringNode) "A1" "coins" 100).trace.map Rpc.method =
        ["Chain33.GetHeaders", "Chain33.GetBalance"] :=
  balance_height_two_rpcs (sampleEnv answeringNode) "A1" "coins" 100 ⟨100, "H"⟩ []
    (by decide) (by decide) (by decide) (by decide) rfl

/-- C2: with a valid address, a non-empty allowed executor name and a height
`h ≥ 0`, when `GetHeaders` fails, the trace is that one call, `GetBalance` is
not issued, the error written is the one the call returned and nothing is
printed. -/
theorem balance_getHeaders_error (env : Env) (addr execer : String) (height : Int)
    (err : RpcError)
    (hAddr : env.CheckAddress addr = none) (hExec : execer ≠ "")
    (hAllow : env.IsAllowExecName execer execer = true) (hHeight : 0 ≤ height)
    (hHeaders : env.node.GetHeaders ⟨height, height, false⟩ = .error err) :
    balance env addr execer height =
      ⟨[.GetHeaders ⟨height, height, false⟩], .stderr (.rpc err)⟩ := by
  simp [balance, hAddr, hExec, hAllow, hHeight, hHeaders]

theorem balance_getHeaders_error_witness :
    balance (sampleEnv refusingNode) "A1" "coins" 100 =
      ⟨[.GetHeaders ⟨100, 100, false⟩], .stderr (.rpc "connection refused")⟩ :=
  balance_getHeaders_error (sampleEnv refusingNode) "A1" "coins" 100 "connection refused"
    (by decide) (by decide) (by decide) (by decide) rfl

/-- C3: with a valid address, a non-empty allowed executor name and a height
below 0, `balance` issues exactly one RPC, `Chain33.GetBalance` with
`Addresses = [addr]`, the executor name and an empty state hash. -/
theorem balance_no_height_one_rpc (env : Env) (addr execer : String) (height : Int)
    (hAddr : env.CheckAddress addr = none) (hExec : execer ≠ "")
    (hAllow : env.IsAllowExecName execer execer = true) (hHeight : height < 0) :
    (balance env addr execer height).trace = [.GetBalance ⟨[addr], execer, ""⟩] ∧
      (balance env addr execer height).trace.map Rpc.method = ["Chain33.GetBalance"] := by
  have hneg : ¬ (0 ≤ height) := not_le.mpr hHeight
  simp [balance, balanceFetch, hAddr, hExec, hAllow, hneg, Rpc.method]

theorem balance_no_height_one_rpc_witness :
    (balance (sampleEnv answeringNode) "A1" "coins" (-1)).trace =
        [.GetBalance ⟨["A1"], "coins", ""⟩] ∧
      (balance (sampleEnv answeringNode) "A1" "coins" (-1)).trace.map Rpc.method =
        ["Chain33.GetBalance"] :=
  balance_no_height_one_rpc (sampleEnv answeringNode) "A1" "coins" (-1)
    (by decide) (by decide) (by decide) (by decide)

/-- C4: with a valid address and an empty executor name, whatever the
height, `balance` issues exactly one RPC, `Chain33.GetAllExecBalance` with
`Addr = addr`, and the run is the same under every executor-name guard. -/
theorem balance_empty_exec_one_rpc (env : Env) (addr : String) (height : Int)
    (hAddr : env.CheckAddress addr = none) :
    (balance env addr "" height).trace = [.GetAllExecBalance ⟨addr⟩] ∧
      (balance env addr "" height).trace.map Rpc.method = ["Chain33.GetAllExecBalance"] ∧
      (balance env addr "" height).outcome =
        Run (env.node.GetAllExecBalance ⟨addr⟩)
          (asCallback .allExec (parseGetAllBalanceRes env.Coin)) ∧
      ∀ guard : String → String → Bool,
        balance ⟨env.CheckAddress, guard, env.Coin, env.node⟩ addr "" height =
          balance env addr "" height := by
  simp [balance, hAddr, Rpc.method]

theorem balance_empty_exec_one_rpc_witness :
    (balance (sampleEnv answeringNode) "A1" "" 7).trace = [.GetAllExecBalance ⟨"A1"⟩] ∧
      (balance (sampleEnv answeringNode) "A1" "" 7).trace.map Rpc.method =
        ["Chain33.GetAllExecBalance"] ∧
      (balance (sampleEnv answeringNode) "A1" "" 7).outcome =
        Run ((sampleEnv answeringNode).node.GetAllExecBalance ⟨"A1"⟩)
          (asCallback .allExec (parseGetAllBalanceRes (sampleEnv answeringNode).Coin)) ∧
      ∀ guard : String → String → Bool,
        balance ⟨(sampleEnv answeringNode).CheckAddress, guard, (sampleEnv answeringNode).Coin,
          (sampleEnv answeringNode).node⟩ "A1" "" 7 =
          balance (sampleEnv answeringNode) "A1" "" 7 :=
  balance_empty_exec_one_rpc (sampleEnv answeringNode) "A1" 7 (by decide)

/-- C5: a local validation failure issues no RPC. Every input whose address
fails the check ends `balance` with `ErrInvalidAddress` and an empty trace,
whatever the executor name and height, so also when the name would be
rejected too; every input with a valid address and a non-empty executor name
the guard rejects ends it with `ErrExecNameNotAllow` and an empty trace,
whatever the height. -/
theorem balance_validation_no_rpc (env : Env) :
    (∀ (addr execer : String) (height : Int), env.CheckAddress addr ≠ none →
        balance env addr execer height = ⟨[], .stderr .ErrInvalidAddress⟩) ∧
      (∀ (addr execer : String) (height : Int), env.CheckAddress addr = none →
        execer ≠ "" → env.IsAllowExecName execer execer = false →
        balance env addr execer height = ⟨[], .stderr .ErrExecNameNotAllow⟩) := by
  constructor
  · intro addr execer height hBad
    unfold balance
    cases hc : env.CheckAddress addr with
    | none => exact absurd hc hBad
    | some _ => rfl
  · intro addr execer height hAddr hExec hReject
    simp [balance, hAddr, hExec, hReject]

theorem balance_validation_no_rpc_witness :
    balance (sampleEnv answeringNode) "bad" "nosuch" 3 = ⟨[], .stderr .ErrInvalidAddress⟩ ∧
      balance (sampleEnv answeringNode) "A1" "nosuch" 3 = ⟨[], .stderr .ErrExecNameNotAllow⟩ :=
  ⟨(balance_validation_no_rpc (sampleEnv answeringNode)).1 "bad" "nosuch" 3 (by decide),
    (balance_validation_no_rpc (sampleEnv answeringNode)).2 "A1" "nosuch" 3
      (by decide) (by decide) (by decide)⟩

/-! ## Commands that skip the address check -/

/-- C6, what the code does: `dumpKey` and `setLabel` never consult the
address validator. For every address, also one that fails the check, each
issues its one RPC (`Chain33.DumpPrivkey` with `Data = addr`,
`Chain33.SetLabl` with `Addr = addr` and the label), ends as the node
answers and never with `ErrInvalidAddress`, and runs the same under every
replacement of the validator; `balance` on an address that fails the check
issues no RPC. -/
theorem address_check_only_in_balance (env : Env) (addr label : String)
    (hBad : env.CheckAddress addr ≠ none) :
    (∀ (execer : String) (height : Int),
        balance env addr execer height = ⟨[], .stderr .ErrInvalidAddress⟩) ∧
      (dumpKey env addr).trace = [.DumpPrivkey ⟨addr⟩] ∧
      (dumpKey env addr).outcome =
        (match env.node.DumpPrivkey ⟨addr⟩ with
          | .ok res => .printed (.reply res)
          | .error err => .stderr (.rpc err)) ∧
      (setLabel env addr label).trace = [.SetLabl ⟨addr, label⟩] ∧
      (setLabel env addr label).outcome =
        (match env.node.SetLabl ⟨addr, label⟩ with
          | .ok res => .printed (.wallet ⟨DecodeAccount res.Acc env.Coin, res.Label⟩)
          | .error err => .stderr (.rpc err)) ∧
      (∀ check : String → Option String,
        dumpKey ⟨check, env.IsAllowExecName, env.Coin, env.node⟩ addr = dumpKey env addr ∧
        setLabel ⟨check, env.IsAllowExecName, env.Coin, env.node⟩ addr label =
          setLabel env addr label) := by
  refine ⟨?_, rfl, ?_, rfl, ?_, fun _ => ⟨rfl, rfl⟩⟩
  · intro execer height
    unfold balance
    cases hc : env.CheckAddress addr with
    | none => exact absurd hc hBad
    | some _ => rfl
  · simp only [dumpKey, Run, RunResult]
    cases env.node.DumpPrivkey ⟨addr⟩ <;> rfl
  · simp only [setLabel, Run, RunResult, asCallback, parseSetLabelRes]
    cases env.node.SetLabl ⟨addr, label⟩ <;> rfl

/-- C6 at the failing input: the address `bad` fails the check, `balance`
issues no RPC on it, and `dumpKey` and `setLabel` each issue theirs and print
the node's answer. -/
theorem dumpKey_setLabel_issue_rpc_on_bad_address :
    (sampleEnv answeringNode).CheckAddress "bad" ≠ none ∧
      (∀ (execer : String) (height : Int),
        balance (sampleEnv answeringNode) "bad" execer height =
          ⟨[], .stderr .ErrInvalidAddress⟩) ∧
      (dumpKey (sampleEnv answeringNode) "bad").trace = [.DumpPrivkey ⟨"bad"⟩] ∧
      (dumpKey (sampleEnv answeringNode) "bad").outcome = .printed (.reply ⟨"key"⟩) ∧
      (setLabel (sampleEnv answeringNode) "bad" "mine").trace = [.SetLabl ⟨"bad", "mine"⟩] ∧
      (setLabel (sampleEnv answeringNode) "bad" "mine").outcome =
        .printed (.wallet ⟨⟨0, "0.0000", "0.0000", "bad"⟩, "mine"⟩) := by
  have h := address_check_only_in_balance (sampleEnv answeringNode) "bad" "mine" (by decide)
  refine ⟨by decide, h.1, h.2.1, ?_, h.2.2.2.1, ?_⟩
  · rw [h.2.2.1]; rfl
  · rw [h.2.2.2.2.1]
    have h0 : decodeAmount 10000 0 = "0.0000" := by decide
    simp [sampleEnv, answeringNode, DecodeAccount, h0]

/-! ## Projectors -/

/-- C7: on a reply with at least one account `parseGetBalanceRes` returns,
with a nil error, the record holding the first account's `Addr` and
`Currency` and its decoded `Balance` and `Frozen`; later accounts play no
part. With unit 10000, balance 150000 and frozen 0 give `15.0000` and
`0.0000`. -/
theorem parseGetBalanceRes_first_account (Coin : Int) (a : rpctypes.Account)
    (rest : List (Option rpctypes.Account)) :
    parseGetBalanceRes Coin (some a :: rest) =
        .ok (.ok ⟨a.Currency, decodeAmount Coin a.Balance, decodeAmount Coin a.Frozen, a.Addr⟩) ∧
      ∀ (cur : Int) (addr : String),
        parseGetBalanceRes 10000 (some ⟨cur, 150000, 0, addr⟩ :: rest) =
          .ok (.ok ⟨cur, "15.0000", "0.0000", addr⟩) := by
  refine ⟨rfl, ?_⟩
  intro cur addr
  have h1 : decodeAmount 10000 150000 = "15.0000" := by decide
  have h2 : decodeAmount 10000 0 = "0.0000" := by decide
  simp [parseGetBalanceRes, h1, h2]

/-- The accumulating loop of a projector is a map. -/
theorem foldl_append_singleton {α β : Type} (f : α → β) (xs : List α) :
    ∀ acc : List β, xs.foldl (fun out x => out ++ [f x]) acc = acc ++ xs.map f := by
  induction xs with
  | nil => intro acc; simp
  | cons x xs ih => intro acc; simp [ih]

/-- C8: `parseListAccountRes` and `parseGetAllBalanceRes` map the reply list
entry by entry, in order: the output has the length of the input, its i-th
entry is built from the i-th input entry alone, and an empty list gives an
empty list. -/
theorem list_projectors_map (Coin : Int) (ws : rpctypes.WalletAccounts)
    (all : rpctypes.AllExecBalance) :
    (parseListAccountRes Coin ws = .ok (.ok ⟨ws.Wallets.map (fun r =>
        ⟨⟨r.Acc.Currency, decodeAmount Coin r.Acc.Balance, decodeAmount Coin r.Acc.Frozen,
          r.Acc.Addr⟩, r.Label⟩)⟩)) ∧
      (parseGetAllBalanceRes Coin all = .ok (.ok ⟨all.Addr, all.ExecAccount.map (fun acc =>
        ⟨acc.Execer, ⟨acc.Account.Currency, decodeAmount Coin acc.Account.Balance,
          decodeAmount Coin acc.Account.Frozen, ""⟩⟩)⟩)) ∧
      (∀ out, parseListAccountRes Coin ws = .ok (.ok out) →
        out.Wallets.length = ws.Wallets.length) ∧
      (∀ out, parseGetAllBalanceRes Coin all = .ok (.ok out) →
        out.ExecAccount.length = all.ExecAccount.length) ∧
      parseListAccountRes Coin ⟨[]⟩ = .ok (.ok ⟨[]⟩) ∧
      parseGetAllBalanceRes Coin ⟨all.Addr, []⟩ = .ok (.ok ⟨all.Addr, []⟩) := by
  have e1 : parseListAccountRes Coin ws = .ok (.ok ⟨ws.Wallets.map (fun r =>
        ⟨⟨r.Acc.Currency, decodeAmount Coin r.Acc.Balance, decodeAmount Coin r.Acc.Frozen,
          r.Acc.Addr⟩, r.Label⟩)⟩) := by
    unfold parseListAccountRes
    simp only
    rw [foldl_append_singleton]
    rfl
  have e2 : parseGetAllBalanceRes Coin all = .ok (.ok ⟨all.Addr, all.ExecAccount.map (fun acc =>
        ⟨acc.Execer, ⟨acc.Account.Currency, decodeAmount Coin acc.Account.Balance,
          decodeAmount Coin acc.Account.Frozen, ""⟩⟩)⟩) := by
    unfold parseGetAllBalanceRes
    simp only
    rw [foldl_append_singleton]
    rfl
  refine ⟨e1, e2, ?_, ?_, rfl, rfl⟩
  · intro out h
    rw [e1] at h
    injection h with h
    injection h with h
    rw [← h]
    simp
  · intro out h
    rw [e2] at h
    injection h with h
    injection h with h
    rw [← h]
    simp

/-! ## The amount decoding -/

/-- C9: for a positive int64 unit and int64 amounts `raw1 ≤ raw2`, the
decoding is a string with exactly 4 digits after the decimal point, the
number denoted by the decoding of `raw1` is at most the one denoted by the
decoding of `raw2`, and 0 and the unit decode to `0.0000` and `1.0000`. -/
theorem decodeAmount_four_digits_monotone (Coin raw1 raw2 : Int)
    (hCoin : 0 < Coin) (_hCoinMax : Coin < 2 ^ 63)
    (_hMin : -(2 ^ 63) ≤ raw1) (hLe : raw1 ≤ raw2) (_hMax : raw2 < 2 ^ 63) :
    (∃ ip fp : List Char, (decodeAmount Coin raw1).data = ip ++ '.' :: fp ∧ fp.length = 4 ∧
        (∀ c ∈ fp, c.isDigit = true) ∧ '.' ∉ ip) ∧
      decimalValue (decodeAmount Coin raw1) ≤ decimalValue (decodeAmount Coin raw2) ∧
      decodeAmount Coin 0 = "0.0000" ∧ decodeAmount Coin Coin = "1.0000" :=
  ⟨FormatFloat_shape _ 4 (by norm_num), decodeAmount_mono Coin raw1 raw2 hCoin hLe,
    decodeAmount_zero Coin hCoin, decodeAmount_unit Coin hCoin⟩

theorem decodeAmount_four_digits_monotone_witness :
    (∃ ip fp : List Char, (decodeAmount 10000 (-5000)).data = ip ++ '.' :: fp ∧ fp.length = 4 ∧
        (∀ c ∈ fp, c.isDigit = true) ∧ '.' ∉ ip) ∧
      decimalValue (decodeAmount 10000 (-5000)) ≤ decimalValue (decodeAmount 10000 150000) ∧
      decodeAmount 10000 0 = "0.0000" ∧ decodeAmount 10000 10000 = "1.0000" :=
  decodeAmount_four_digits_monotone 10000 (-5000) 150000 (by decide) (by decide) (by decide)
    (by decide) (by decide)

/-! ## The single-executor path -/

/-- The outcome of `balanceFetch` by the `GetBalance` reply. -/
theorem balanceFetch_outcome (env : Env) (issued : List Rpc) (addr execer stateHash : String) :
    (balanceFetch env issued addr execer stateHash).outcome =
      match env.node.GetBalance ⟨[addr], execer, stateHash⟩ with
      | .error err => .stderr (.rpc err)
      | .ok [] => .panic (.indexOutOfRange 0 0)
      | .ok (none :: _) => .panic .nilDereference
      | .ok (some a :: _) => .printed (.account
          ⟨a.Currency, decodeAmount env.Coin a.Balance, decodeAmount env.Coin a.Frozen, a.Addr⟩) := by
  unfold balanceFetch
  simp only [List.nil_append]
  cases hr : env.node.GetBalance ⟨[addr], execer, stateHash⟩ with
  | error err => simp [Run, RunResult]
  | ok res =>
    cases res with
    | nil => simp [Run, RunResult, asCallback, parseGetBalanceRes]
    | cons a rest =>
      cases a with
      | none => simp [Run, RunResult, asCallback, parseGetBalanceRes]
      | some a => simp [Run, RunResult, asCallback, parseGetBalanceRes]

/-- C10, as the code has it: on the single-executor path a balance record is
printed exactly when the state hash resolves (no height asked, or
`GetHeaders` succeeds and its first header is there and not nil) and
`GetBalance` succeeds and its first account is there and not nil. The index
accesses `res.Items[0]` and `res[0]` are out of range exactly on an empty
list; a nil first element panics at the field read that follows. After an
empty header list or a nil first header `GetHeaders` is the only RPC, and
whatever is printed is the whole record of the first account. -/
theorem balance_record_iff (env : Env) (addr execer : String) (height : Int)
    (hAddr : env.CheckAddress addr = none) (hExec : execer ≠ "")
    (hAllow : env.IsAllowExecName execer execer = true) :
    ((∃ r, (balance env addr execer height).outcome = .printed (.account r)) ↔
        ∃ stateHash, HeightResolve env height stateHash ∧
          ∃ a rest, env.node.GetBalance ⟨[addr], execer, stateHash⟩ = .ok (some a :: rest)) ∧
      ((balance env addr execer height).outcome = .panic (.indexOutOfRange 0 0) ↔
        (0 ≤ height ∧ env.node.GetHeaders ⟨height, height, false⟩ = .ok ⟨[]⟩) ∨
          ∃ stateHash, HeightResolve env height stateHash ∧
            env.node.GetBalance ⟨[addr], execer, stateHash⟩ = .ok []) ∧
      ((balance env addr execer height).outcome = .panic .nilDereference ↔
        (0 ≤ height ∧ ∃ rest, env.node.GetHeaders ⟨height, height, false⟩ = .ok ⟨none :: rest⟩) ∨
          ∃ stateHash, HeightResolve env height stateHash ∧
            ∃ rest, env.node.GetBalance ⟨[addr], execer, stateHash⟩ = .ok (none :: rest)) ∧
      (0 ≤ height →
        (env.node.GetHeaders ⟨height, height, false⟩ = .ok ⟨[]⟩ ∨
          ∃ rest, env.node.GetHeaders ⟨height, height, false⟩ = .ok ⟨none :: rest⟩) →
        (balance env addr execer height).trace = [.GetHeaders ⟨height, height, false⟩]) ∧
      (∀ v, (balance env addr execer height).outcome = .printed v →
        ∃ stateHash a rest,
          env.node.GetBalance ⟨[addr], execer, stateHash⟩ = .ok (some a :: rest) ∧
          v = .account ⟨a.Currency, decodeAmount env.Coin a.Balance,
            decodeAmount env.Coin a.Frozen, a.Addr⟩) := by
  by_cases hh : 0 ≤ height
  · have hnlt : ¬ height < 0 := not_lt.mpr hh
    cases hg : env.node.GetHeaders ⟨height, height, false⟩ with
    | error err =>
      have hb : balance env addr execer height =
          ⟨[.GetHeaders ⟨height, height, false⟩], .stderr (.rpc err)⟩ := by
        simp [balance, hAddr, hExec, hAllow, hh, hg]
      simp [hb, HeightResolve, hnlt, hg]
    | ok res =>
      obtain ⟨items⟩ := res
      cases items with
      | nil =>
        have hb : balance env addr execer height =
            ⟨[.GetHeaders ⟨height, height, false⟩], .panic (.indexOutOfRange 0 0)⟩ := by
          simp [balance, hAddr, hExec, hAllow, hh, hg]
        simp [hb, HeightResolve, hnlt, hg, hh]
      | cons first rest =>
        cases first with
        | none =>
          have hb : balance env addr execer height =
              ⟨[.GetHeaders ⟨height, height, false⟩], .panic .nilDereference⟩ := by
            simp [balance, hAddr, hExec, hAllow, hh, hg]
          simp [hb, HeightResolve, hnlt, hg, hh]
        | some h =>
          have hb : balance env addr execer height =
              balanceFetch env [.GetHeaders ⟨height, height, false⟩] addr execer h.StateHash := by
            simp [balance, hAddr, hExec, hAllow, hh, hg]
          have hres : ∀ sh, HeightResolve env height sh ↔ sh = h.StateHash := by
            intro sh
            simp [HeightResolve, hnlt, hg, hh]
          rw [hb, balanceFetch_outcome]
          cases hr : env.node.GetBalance ⟨[addr], execer, h.StateHash⟩ with
          | error err => simp [hres, hr, hh]
          | ok accs =>
            cases accs with
            | nil => simp [hres, hr, hh]
            | cons a more =>
              cases a with
              | none => simp [hres, hr, hh]
              | some a =>
                simp only [hres, hr]
                refine ⟨by simp [hr], by simp [hr, hh], by simp [hr, hh], by simp, ?_⟩
                intro v hv
                exact ⟨h.StateHash, a, more, hr, by simpa using hv.symm⟩
  · have hlt : height < 0 := not_le.mp hh
    have hb : balance env addr execer height = balanceFetch env [] addr execer "" := by
      simp [balance, hAddr, hExec, hAllow, hh]
    have hres : ∀ sh, HeightResolve env height sh ↔ sh = "" := by
      intro sh
      simp [HeightResolve, hlt, hh]
    rw [hb, balanceFetch_outcome]
    cases hr : env.node.GetBalance ⟨[addr], execer, ""⟩ with
    | error err => simp [hres, hr, hh]
    | ok accs =>
      cases accs with
      | nil => simp [hres, hr, hh]
      | cons a more =>
        cases a with
        | none => simp [hres, hr, hh]
        | some a =>
          simp only [hres, hr]
          refine ⟨by simp [hr], by simp [hr, hh], by simp [hr, hh], by simp [hh], ?_⟩
          intro v hv
          exact ⟨"", a, more, hr, by simpa using hv.symm⟩

theorem balance_record_iff_witness :
    ((∃ r, (balance (sampleEnv answeringNode) "A1" "coins" 50).outcome = .printed (.account r)) ↔
        ∃ stateHash, HeightResolve (sampleEnv answeringNode) 50 stateHash ∧
          ∃ a rest, (sampleEnv answeringNode).node.GetBalance ⟨["A1"], "coins", stateHash⟩
            = .ok (some a :: rest)) ∧
      ((balance (sampleEnv answeringNode) "A1" "coins" 50).outcome =
          .panic (.indexOutOfRange 0 0) ↔
        (0 ≤ (50 : Int) ∧ (sampleEnv answeringNode).node.GetHeaders ⟨50, 50, false⟩ = .ok ⟨[]⟩) ∨
          ∃ stateHash, HeightResolve (sampleEnv answeringNode) 50 stateHash ∧
            (sampleEnv answeringNode).node.GetBalance ⟨["A1"], "coins", stateHash⟩ = .ok []) ∧
      ((balance (sampleEnv answeringNode) "A1" "coins" 50).outcome = .panic .nilDereference ↔
        (0 ≤ (50 : Int) ∧
            ∃ rest, (sampleEnv answeringNode).node.GetHeaders ⟨50, 50, false⟩
              = .ok ⟨none :: rest⟩) ∨
          ∃ stateHash, HeightResolve (sampleEnv answeringNode) 50 stateHash ∧
            ∃ rest, (sampleEnv answeringNode).node.GetBalance ⟨["A1"], "coins", stateHash⟩
              = .ok (none :: rest)) ∧
      (0 ≤ (50 : Int) →
        ((sampleEnv answeringNode).node.GetHeaders ⟨50, 50, false⟩ = .ok ⟨[]⟩ ∨
          ∃ rest, (sampleEnv answeringNode).node.GetHeaders ⟨50, 50, false⟩
            = .ok ⟨none :: rest⟩) →
        (balance (sampleEnv answeringNode) "A1" "coins" 50).trace = [.GetHeaders ⟨50, 50, false⟩]) ∧
      (∀ v, (balance (sampleEnv answeringNode) "A1" "coins" 50).outcome = .printed v →
        ∃ stateHash a rest,
          (sampleEnv answeringNode).node.GetBalance ⟨["A1"], "coins", stateHash⟩
            = .ok (some a :: rest) ∧
          v = .account ⟨a.Currency, decodeAmount (sampleEnv answeringNode).Coin a.Balance,
            decodeAmount (sampleEnv answeringNode).Coin a.Frozen, a.Addr⟩) :=
  balance_record_iff (sampleEnv answeringNode) "A1" "coins" 50 (by decide) (by decide) (by decide)

/-- C10 fails as stated: on the reply `[null]` every issued RPC succeeds, the
header list and the account list each hold one element, both index accesses
are in range, and yet no record is printed: the run panics on the nil
element. -/
theorem balance_null_account_no_record :
    (sampleEnv nullAccountNode).CheckAddress "A1" = none ∧
      (sampleEnv nullAccountNode).IsAllowExecName "coins" "coins" = true ∧
      (sampleEnv nullAccountNode).node.GetHeaders ⟨50, 50, false⟩ = .ok ⟨[some ⟨50, "H"⟩]⟩ ∧
      (sampleEnv nullAccountNode).node.GetBalance ⟨["A1"], "coins", "H"⟩ = .ok [none] ∧
      ([none] : List (Option rpctypes.Account)).length = 1 ∧
      (balance (sampleEnv nullAccountNode) "A1" "coins" 50).trace =
        [.GetHeaders ⟨50, 50, false⟩, .GetBalance ⟨["A1"], "coins", "H"⟩] ∧
      (balance (sampleEnv nullAccountNode) "A1" "coins" 50).outcome = .panic .nilDereference ∧
      ¬ ∃ r, (balance (sampleEnv nullAccountNode) "A1" "coins" 50).outcome =
        .printed (.account r) := by
  have ho : (balance (sampleEnv nullAccountNode) "A1" "coins" 50).outcome =
      .panic .nilDereference := by decide
  refine ⟨by decide, by decide, rfl, rfl, rfl, by decide, ho, ?_⟩
  rintro ⟨r, hr⟩
  rw [ho] at hr
  exact absurd hr (by simp)

end commands
